import Mathlib

/-!
Shallow embedding of the WSN simulation (files `node.py`, `cluster.py`, `wsn.py`,
`config/constants.py`).  Conventions used throughout:

* Python `int` is embedded as `ℤ`.  Node coordinates are embedded as `ℤ` as
  well: both node generators (`WSN.generate_nodes`, random and user mode)
  produce `int` coordinates, so every node the program ever constructs has
  integer-valued coordinates (the constructor stores them as floats, but the
  values are integral and all float arithmetic on them is exact).  Python `//`
  and `%` on integers are `Int.fdiv` / `Int.fmod` (floor division), which agree
  with `Int.ediv` / `Int.emod` for the positive divisors used here.
* The fitness `f = 0.4*r + 0.4*e + 0.2*p` and the cluster-center coordinates
  (`col*5 + 2.5`) are not integral; they are embedded as exact `ℚ` values
  (the float arithmetic involved is only ever used through comparisons that the
  spec declares exact).
* `Node.distance_to` returns the Euclidean norm `√((x₁-x₂)² + (y₁-y₂)²)`.
  Every use in the source is a comparison (`≤`, `==`, `min`, sort keys) of two
  such distances; since `√` is strictly monotone on nonnegative reals, all
  those comparisons are embedded on the squared distances, which are exact.
  Theorems that speak about the Euclidean distance itself phrase it with
  `Real.sqrt` of the squared distance.
* Python exceptions that escape a function (`AttributeError` on `None`, …) are
  modelled by an `Option` result being `none`.
* Calls to `random.choice` are modelled by explicit extra parameters (a `Bool`
  coin for the boundary tie-break in `get_cluster_id`, a `ℕ` pick for the final
  tie-break of `elect_clusterhead`).
-/

/-- Embedding of class `Node` (node.py).  `cluster` starts out `None` and is
the only field ever written after construction (by `Cluster.add_node`). -/
structure Node where
  node_id : ℤ
  x : ℤ
  y : ℤ
  r : ℤ
  e : ℤ
  p : ℤ
  cluster : Option ℤ
  f : ℚ
deriving DecidableEq

instance : Inhabited Node := ⟨⟨0, 0, 0, 0, 0, 0, none, 0⟩⟩

/-- `Node.__init__` (node.py, lines 28-52): stores all parameters unchanged,
sets `cluster = None` and computes `f = 0.4*r + 0.4*e + 0.2*p`.  There is no
validation of any input in the source constructor. -/
def Node.init (node_id : ℤ) (x y : ℤ) (r e p : ℤ) : Node :=
  { node_id := node_id, x := x, y := y, r := r, e := e, p := p,
    cluster := none,
    f := (2 / 5 : ℚ) * r + (2 / 5 : ℚ) * e + (1 / 5 : ℚ) * p }

/-- Square of the Euclidean distance computed by `Node.distance_to` (node.py,
lines 54-61) between two nodes; see the header comment for why comparisons are
embedded on squares. -/
def Node.dist_sq (a b : Node) : ℤ :=
  (a.x - b.x) ^ 2 + (a.y - b.y) ^ 2

/-- `MAX_COORD` from `config/constants.py`. -/
def MAX_COORD : ℤ := 20

/-- `CLUSTER_SIZE` from `config/constants.py`. -/
def CLUSTER_SIZE : ℤ := 5

/-- `NUM_CLUSTERS` from `config/constants.py`. -/
def NUM_CLUSTERS : ℕ := 16

/-- `rank_and_file_calculator` nested in `get_cluster_id` (wsn.py, lines
33-51): `result = value // CLUSTER_SIZE - value // MAX_COORD` (Python floor
division, `Int.fdiv`), and if the value sits on an interior cell boundary
(`value % CLUSTER_SIZE == 0` with `value` neither `0` nor the literal `20`) a
coin flip (`random.choice([True, False])`) decides whether `result` is
decremented. -/
def rank_and_file_calculator (value : ℤ) (coin : Bool) : ℤ :=
  let result := value.fdiv CLUSTER_SIZE - value.fdiv MAX_COORD
  if value.fmod CLUSTER_SIZE = 0 ∧ value ≠ 0 ∧ value ≠ 20 then
    if coin then result - 1 else result
  else result

/-- `get_cluster_id` (wsn.py, lines 23-64): `cluster = row * 4 + col` where
`col`/`row` come from the x/y coordinate; the two coins model the two
independent `random.choice` calls. -/
def get_cluster_id (x y : ℤ) (coin_x coin_y : Bool) : ℤ :=
  rank_and_file_calculator y coin_y * 4 + rank_and_file_calculator x coin_x

/-- Embedding of class `Cluster` (cluster.py).  The elected head is not stored
but returned by `elect_clusterhead` (the source stores the same value in
`self.clusterhead`). -/
structure Cluster where
  cluster_id : ℤ
  nodes : List Node
deriving DecidableEq

/-- `Cluster.add_node` (cluster.py, lines 32-39): appends the node to the
member list and writes the cluster id into the node (the single field mutation
of a `Node` in the program). -/
def Cluster.add_node (c : Cluster) (n : Node) : Cluster :=
  { c with nodes := c.nodes ++ [{ n with cluster := some c.cluster_id }] }

/-- X-coordinate of `Cluster.center` (cluster.py, lines 74-94):
`col * CLUSTER_SIZE + CLUSTER_SIZE / 2` with `col = cluster_id % 4`. -/
def Cluster.center_x (c : Cluster) : ℚ :=
  (c.cluster_id.fmod 4 : ℤ) * 5 + 5 / 2

/-- Y-coordinate of `Cluster.center`: `row * CLUSTER_SIZE + CLUSTER_SIZE / 2`
with `row = cluster_id // 4`. -/
def Cluster.center_y (c : Cluster) : ℚ :=
  (c.cluster_id.fdiv 4 : ℤ) * 5 + 5 / 2

/-- Squared Euclidean distance from a member to the cluster's geometric center
(the source materialises the center as a throwaway `Node(-1, cx, cy, 0, 0, 0)`
whose only used attribute is its position, and calls `distance_to` on it). -/
def Cluster.center_dist_sq (c : Cluster) (n : Node) : ℚ :=
  ((n.x : ℚ) - c.center_x) ^ 2 + ((n.y : ℚ) - c.center_y) ^ 2

/-- `max(node.f for node in self.nodes)` (cluster.py, line 49); Python's `max`
of an empty iterable raises, the source only evaluates this for non-empty
clusters (the guard value 0 for `[]` is never reached under the theorems'
hypotheses). -/
def Cluster.max_fitness (c : Cluster) : ℚ :=
  match c.nodes.map Node.f with
  | [] => 0
  | v :: vs => vs.foldl max v

/-- `top_nodes` (cluster.py, line 52): members sharing the maximum fitness,
exact equality. -/
def Cluster.top_nodes (c : Cluster) : List Node :=
  c.nodes.filter (fun n => decide (n.f = c.max_fitness))

/-- `min(node.distance_to(center_node) for node in top_nodes)` (cluster.py,
line 60), embedded on squared distances. -/
def Cluster.min_distance (c : Cluster) : ℚ :=
  match c.top_nodes.map c.center_dist_sq with
  | [] => 0
  | v :: vs => vs.foldl min v

/-- `closest_nodes` (cluster.py, line 63): the top nodes attaining the minimum
distance to the center (equality of Euclidean distances is equivalent to
equality of their squares). -/
def Cluster.closest_nodes (c : Cluster) : List Node :=
  c.top_nodes.filter (fun n => decide (c.center_dist_sq n = c.min_distance))

/-- `Cluster.elect_clusterhead` (cluster.py, lines 41-72).  `pick` models the
`random.choice(closest_nodes)` draw (an arbitrary position, taken modulo the
length).  On an empty member list Python's `max` raises, modelled as `none`;
the source only calls this for non-empty clusters. -/
def Cluster.elect_clusterhead (c : Cluster) (pick : ℕ) : Option Node :=
  if c.nodes.isEmpty then none
  else if c.top_nodes.length = 1 then c.top_nodes.head?
  else if c.closest_nodes.length = 1 then c.closest_nodes.head?
  else c.closest_nodes.get? (pick % c.closest_nodes.length)

/-- The WSN constructor's `self.clusters = [Cluster(i) for i in range(NUM_CLUSTERS)]`
(wsn.py, line 83). -/
def init_clusters : List Cluster :=
  (List.range NUM_CLUSTERS).map (fun i => ⟨(i : ℤ), []⟩)

/-- `self.clusters[cluster_id].add_node(node)` (wsn.py, line 152).  The index
is taken as `toNat`; under the in-bounds hypotheses of the theorems
`0 ≤ cid < 16`, where this agrees with Python list indexing. -/
def clusters_add (cs : List Cluster) (cid : ℤ) (n : Node) : List Cluster :=
  cs.set cid.toNat ((cs.getD cid.toNat ⟨cid, []⟩).add_node n)

/-- The loop body of `WSN.assign_clusters` (wsn.py, lines 145-152), iterating
over the node list; `bits i` supplies the two `random.choice` coins consumed by
`get_cluster_id` for the node at position `i`. -/
def assign_clusters_aux (bits : ℕ → Bool × Bool) :
    List Node → ℕ → List Cluster → List Cluster
  | [], _, cs => cs
  | n :: rest, i, cs =>
      assign_clusters_aux bits rest (i + 1)
        (clusters_add cs (get_cluster_id n.x n.y (bits i).1 (bits i).2) n)

/-- `WSN.assign_clusters` run on a freshly constructed network (clusters start
empty). -/
def assign_clusters (nodes : List Node) (bits : ℕ → Bool × Bool) : List Cluster :=
  assign_clusters_aux bits nodes 0 init_clusters

/-- All members of all clusters, in cluster order. -/
def member_nodes (cs : List Cluster) : List Node :=
  (cs.map Cluster.nodes).flatten

/-- The ids of all members of all clusters. -/
def member_ids (cs : List Cluster) : List ℤ :=
  (member_nodes cs).map Node.node_id

/-- Embedding of class `WSN` for routing: the node list (`self.nodes`). -/
structure WSN where
  nodes : List Node
deriving DecidableEq

/-- Safe positional access `self.nodes[i]` (all uses in the source are in
bounds; the default is never reached under the theorems' hypotheses). -/
def nget (nodes : List Node) (i : ℕ) : Node := nodes.getD i default

/-- `WSN.build_kd_tree` (wsn.py, lines 164-170): builds the index only when the
node list is non-empty, otherwise `self.kd_tree` stays `None`.  The KD tree is
an index over the position array; queries are modelled directly on the node
list, so only presence (`some`) versus absence (`none`) matters here. -/
def build_kd_tree (nodes : List Node) : Option (List (ℤ × ℤ)) :=
  if nodes.isEmpty then none else some (nodes.map (fun n => (n.x, n.y)))

/-- `self.kd_tree.query_ball_point(pos, r)` (wsn.py, line 226): the indices of
all nodes within Euclidean distance `r` of `pos` (scipy includes the boundary).
`dist ≤ r` is embedded as `0 ≤ r ∧ dist² ≤ r²`; a negative radius admits no
point.  scipy returns the indices in unspecified order; increasing index order
is fixed here (the source only tests membership and then re-sorts the list with
a stable sort, and the claims at hand are insensitive to the choice). -/
def query_ball_point (nodes : List Node) (px py : ℤ) (radius : ℤ) : List ℕ :=
  (List.range nodes.length).filter (fun i =>
    decide (0 ≤ radius ∧
      ((nget nodes i).x - px) ^ 2 + ((nget nodes i).y - py) ^ 2 ≤ radius ^ 2))

/-- `WSN.get_node_by_id` (wsn.py, lines 266-277): first node with the given id,
`None` if absent.  The source returns the object; the embedding returns its
position in `self.nodes`, because `find_route` distinguishes nodes by object
identity (`!=`) and distinct list entries are distinct objects. -/
def get_node_by_id (nodes : List Node) (node_id : ℤ) : Option ℕ :=
  match nodes with
  | [] => none
  | n :: rest =>
    if n.node_id = node_id then some 0
    else (get_node_by_id rest node_id).map (· + 1)

/-- Stable insertion of `x` into a list ordered by `key` (after all entries
with a key `≤ key x`). -/
def insert_by_key (key : ℕ → ℤ) (x : ℕ) : List ℕ → List ℕ
  | [] => [x]
  | y :: ys => if key x < key y then x :: y :: ys else y :: insert_by_key key x ys

/-- `list.sort(key=...)` (wsn.py, line 257).  Python's sort is a stable sort by
key, and a stable sort is uniquely determined by the key order and the input
order, so this insertion sort computes exactly the list Timsort produces. -/
def sort_by_key (key : ℕ → ℤ) : List ℕ → List ℕ
  | [] => []
  | x :: xs => insert_by_key key x (sort_by_key key xs)

/-- `WSN.get_nearest_node_kdtree` (wsn.py, lines 213-264).  Note two literal
translations of the source's use of the raw KD-tree result: the destination
shortcut tests `dest_node.node_id in neighbors_within_range`, i.e. the id is
compared against a list of *indices*; and the visited filter removes the
indices that occur in the set of visited *ids*. -/
def get_nearest_node_kdtree (nodes : List Node) (cur dst : ℕ) (visited : Finset ℤ) :
    Option ℕ :=
  let curN := nget nodes cur
  let dstN := nget nodes dst
  let neighbors := query_ball_point nodes curN.x curN.y curN.r
  if dstN.node_id ∈ neighbors.map (fun i => (i : ℤ)) then some dst
  else
    let nb : List ℕ := neighbors.filter (fun (i : ℕ) => decide ((i : ℤ) ∉ visited))
    if nb.isEmpty then none
    else (sort_by_key (fun i => (nget nodes i).dist_sq dstN) nb).head?

/-- Result of the forwarding loop: `found l` is the Python return value `l`;
`fuelOut` marks exhaustion of the explicit fuel used to embed the (unbounded)
`while` loop — `find_route_terminates` proves it never occurs at fuel
`nodes.length`. -/
inductive RouteResult where
  | found : List ℤ → RouteResult
  | fuelOut : RouteResult
deriving DecidableEq

/-- The `while current_node != dest_node` loop of `WSN.find_route` (wsn.py,
lines 196-211).  `route` carries the indices of the nodes on the route in
reverse order, with the current node at its head; `visited` is
`already_visited`.  Each iteration adds the current id to `visited`, asks
`get_nearest_node_kdtree` for the next hop, and fails with `[]` when there is
no candidate or the candidate's id was already visited. -/
def route_loop (nodes : List Node) (dst : ℕ) (fuel : ℕ) (cur : ℕ) (route : List ℕ)
    (visited : Finset ℤ) : RouteResult :=
  if cur = dst then
    .found (route.reverse.map (fun i => (nget nodes i).node_id))
  else
    match fuel with
    | 0 => .fuelOut
    | fuel' + 1 =>
      let visited' := insert (nget nodes cur).node_id visited
      match get_nearest_node_kdtree nodes cur dst visited' with
      | none => .found []
      | some nxt =>
        if (nget nodes nxt).node_id ∈ visited' then .found []
        else route_loop nodes dst fuel' nxt (nxt :: route) visited'

/-- `WSN.find_route` (wsn.py, lines 172-211) with explicit loop fuel.
`none` models an uncaught exception:
* empty network ⇒ `self.kd_tree` is `None` and `self.kd_tree.tree.children`
  raises `AttributeError`;
* unknown source id ⇒ `already_visited.add(None.node_id)` raises on the first
  iteration; unknown destination id ⇒ `dest_node.node_id` raises inside
  `get_nearest_node_kdtree` (and with both unknown the final comprehension
  `node.node_id` raises); in every case the exception escapes `find_route`.
With a non-empty network, `self.kd_tree.tree.children` is the total number of
points, so the guard is `len(nodes) <= 1`. -/
def find_route_gas (w : WSN) (gas : ℕ) (src_id dest_id : ℤ) : Option (List ℤ) :=
  match build_kd_tree w.nodes with
  | none => none
  | some _ =>
    if w.nodes.length ≤ 1 then some []
    else
      match get_node_by_id w.nodes src_id, get_node_by_id w.nodes dest_id with
      | some s, some d =>
        match route_loop w.nodes d gas s [s] ∅ with
        | .found l => some l
        | .fuelOut => none
      | _, _ => none

/-- `WSN.find_route`: the Python loop is unbounded; fuel `nodes.length` is
sufficient and its result fuel-independent (`find_route_terminates`), so this
is the exact function the source computes. -/
def find_route (w : WSN) (src_id dest_id : ℤ) : Option (List ℤ) :=
  find_route_gas w w.nodes.length src_id dest_id

/-- The node constructor as the specification describes it, used only to
contrast claim C8 with the actual `Node.__init__`: construction fails exactly
on malformed input (non-positive radius, energy or processing power, or a
position outside `[0, MAX_COORD]²`). -/
def node_init_checked (node_id : ℤ) (x y : ℤ) (r e p : ℤ) : Option Node :=
  if 0 < r ∧ 0 < e ∧ 0 < p ∧ 0 ≤ x ∧ x ≤ MAX_COORD ∧ 0 ≤ y ∧ y ≤ MAX_COORD then
    some (Node.init node_id x y r e p)
  else none


/-! ### Lemmas about the grid-cell computation -/

/-- `rank_and_file_calculator` rewritten with Euclidean division (equal to
Python floor division for the positive divisors 5 and 20). -/
lemma rank_and_file_calculator_eq (v : ℤ) (coin : Bool) :
    rank_and_file_calculator v coin =
      if v % 5 = 0 ∧ v ≠ 0 ∧ v ≠ 20 then
        (if coin then v / 5 - v / 20 - 1 else v / 5 - v / 20)
      else v / 5 - v / 20 := by
  unfold rank_and_file_calculator
  rw [show CLUSTER_SIZE = 5 from rfl, show MAX_COORD = 20 from rfl,
    Int.fdiv_eq_ediv v (by norm_num), Int.fdiv_eq_ediv v (by norm_num),
    Int.fmod_eq_emod v (by norm_num)]

lemma rank_and_file_calculator_bounds (v : ℤ) (coin : Bool)
    (h0 : 0 ≤ v) (h1 : v ≤ 20) :
    0 ≤ rank_and_file_calculator v coin ∧ rank_and_file_calculator v coin ≤ 3 := by
  rw [rank_and_file_calculator_eq]
  split_ifs <;> omega

lemma get_cluster_id_bounds (x y : ℤ) (cx cy : Bool)
    (hx0 : 0 ≤ x) (hx1 : x ≤ 20) (hy0 : 0 ≤ y) (hy1 : y ≤ 20) :
    0 ≤ get_cluster_id x y cx cy ∧ get_cluster_id x y cx cy < 16 := by
  have hx := rank_and_file_calculator_bounds x cx hx0 hx1
  have hy := rank_and_file_calculator_bounds y cy hy0 hy1
  unfold get_cluster_id
  omega

/-- C3: for every position with both coordinates in `[0, MAX_COORD]` and every
outcome of the two random boundary tie-breaks, `get_cluster_id` returns a
cluster index in `[0, 15]`; each coordinate's row/column lies in `[0, 3]`;
a coordinate on an interior cell boundary goes to one of the two adjacent
cells (`v//5 - 1` or `v//5`); and the outer edge `MAX_COORD` is reflected back
to row/column 3 instead of overflowing. -/
theorem get_cluster_id_in_bounds (x y : ℤ) (cx cy : Bool)
    (hx0 : 0 ≤ x) (hx1 : x ≤ MAX_COORD) (hy0 : 0 ≤ y) (hy1 : y ≤ MAX_COORD) :
    (0 ≤ get_cluster_id x y cx cy ∧ get_cluster_id x y cx cy < 16) ∧
    (0 ≤ rank_and_file_calculator x cx ∧ rank_and_file_calculator x cx ≤ 3) ∧
    (0 ≤ rank_and_file_calculator y cy ∧ rank_and_file_calculator y cy ≤ 3) ∧
    (x.fmod CLUSTER_SIZE = 0 ∧ x ≠ 0 ∧ x ≠ MAX_COORD →
      rank_and_file_calculator x cx = x.fdiv CLUSTER_SIZE - 1 ∨
        rank_and_file_calculator x cx = x.fdiv CLUSTER_SIZE) ∧
    (x = MAX_COORD → rank_and_file_calculator x cx = 3) := by
  rw [show MAX_COORD = 20 from rfl] at hx1 hy1 ⊢
  rw [show CLUSTER_SIZE = 5 from rfl, Int.fmod_eq_emod x (by norm_num),
    Int.fdiv_eq_ediv x (by norm_num)]
  refine ⟨get_cluster_id_bounds x y cx cy hx0 hx1 hy0 hy1,
    rank_and_file_calculator_bounds x cx hx0 hx1,
    rank_and_file_calculator_bounds y cy hy0 hy1, ?_, ?_⟩
  · intro hcond
    rw [rank_and_file_calculator_eq]
    split_ifs <;> omega
  · intro hx
    subst hx
    rw [rank_and_file_calculator_eq]
    split_ifs <;> omega

/-- Witness for C3 at the boundary coordinate `x = 5` (with coin `true`) and
the outer-edge coordinate `y = 20`. -/
theorem get_cluster_id_in_bounds_witness :
    ((0 : ℤ) ≤ 5 ∧ (5 : ℤ) ≤ MAX_COORD ∧ (0 : ℤ) ≤ 20 ∧ (20 : ℤ) ≤ MAX_COORD) ∧
    ((0 ≤ get_cluster_id 5 20 true false ∧ get_cluster_id 5 20 true false < 16) ∧
      (0 ≤ rank_and_file_calculator 5 true ∧ rank_and_file_calculator 5 true ≤ 3) ∧
      (0 ≤ rank_and_file_calculator 20 false ∧ rank_and_file_calculator 20 false ≤ 3) ∧
      ((5 : ℤ).fmod CLUSTER_SIZE = 0 ∧ (5 : ℤ) ≠ 0 ∧ (5 : ℤ) ≠ MAX_COORD →
        rank_and_file_calculator 5 true = (5 : ℤ).fdiv CLUSTER_SIZE - 1 ∨
          rank_and_file_calculator 5 true = (5 : ℤ).fdiv CLUSTER_SIZE) ∧
      ((5 : ℤ) = MAX_COORD → rank_and_file_calculator 5 true = 3)) :=
  ⟨by decide,
    get_cluster_id_in_bounds 5 20 true false (by decide) (by decide) (by decide)
      (by decide)⟩

/-! ### Lemmas about cluster assignment -/

/-- Position within the declared plane bounds (`[0, MAX_COORD]²`). -/
def Node.in_bounds (n : Node) : Prop :=
  0 ≤ n.x ∧ n.x ≤ MAX_COORD ∧ 0 ≤ n.y ∧ n.y ≤ MAX_COORD

instance (n : Node) : Decidable n.in_bounds := by
  unfold Node.in_bounds
  infer_instance

lemma member_nodes_cons (c : Cluster) (t : List Cluster) :
    member_nodes (c :: t) = c.nodes ++ member_nodes t := by
  simp [member_nodes]

lemma member_ids_set_add_count (n : Node) (z : ℤ) (d : Cluster) :
    ∀ (cs : List Cluster) (k : ℕ), k < cs.length →
      (member_ids (cs.set k ((cs.getD k d).add_node n))).count z =
        (member_ids cs).count z + (if n.node_id = z then 1 else 0) := by
  intro cs
  induction cs with
  | nil => intro k hk; simp at hk
  | cons c t ih =>
    intro k hk
    cases k with
    | zero =>
      simp only [List.getD_cons_zero, List.set_cons_zero, member_ids,
        member_nodes_cons, Cluster.add_node, List.map_append, List.count_append,
        List.map_cons, List.map_nil, List.count_singleton', beq_iff_eq]
      split_ifs with h <;> omega
    | succ k =>
      simp only [List.getD_cons_succ, List.set_cons_succ, member_ids,
        member_nodes_cons, List.map_append, List.count_append]
      have := ih k (by simpa using hk)
      simp only [member_ids] at this
      omega

lemma assign_clusters_aux_length (bits : ℕ → Bool × Bool) :
    ∀ (ns : List Node) (i : ℕ) (cs : List Cluster),
      (assign_clusters_aux bits ns i cs).length = cs.length := by
  intro ns
  induction ns with
  | nil => intro i cs; rfl
  | cons n t ih =>
    intro i cs
    rw [assign_clusters_aux, ih]
    simp [clusters_add]

lemma assign_clusters_aux_count (bits : ℕ → Bool × Bool) (z : ℤ) :
    ∀ (ns : List Node) (i : ℕ) (cs : List Cluster), cs.length = 16 →
      (∀ n ∈ ns, n.in_bounds) →
      (member_ids (assign_clusters_aux bits ns i cs)).count z =
        (member_ids cs).count z + ((ns.map Node.node_id).count z) := by
  intro ns
  induction ns with
  | nil => intro i cs _ _; simp [assign_clusters_aux]
  | cons n t ih =>
    intro i cs hlen hb
    have hnb : n.in_bounds := hb n (List.mem_cons_self n t)
    obtain ⟨hx0, hx1, hy0, hy1⟩ := hnb
    rw [show MAX_COORD = 20 from rfl] at hx1 hy1
    have hcid := get_cluster_id_bounds n.x n.y (bits i).1 (bits i).2 hx0 hx1 hy0 hy1
    have hk : (get_cluster_id n.x n.y (bits i).1 (bits i).2).toNat < cs.length := by
      omega
    rw [assign_clusters_aux, ih (i + 1) _ (by simp [clusters_add, hlen])
        (fun m hm => hb m (List.mem_cons_of_mem n hm))]
    rw [show clusters_add cs (get_cluster_id n.x n.y (bits i).1 (bits i).2) n =
        cs.set (get_cluster_id n.x n.y (bits i).1 (bits i).2).toNat
          ((cs.getD (get_cluster_id n.x n.y (bits i).1 (bits i).2).toNat
            ⟨get_cluster_id n.x n.y (bits i).1 (bits i).2, []⟩).add_node n) from rfl,
      member_ids_set_add_count n z _ cs _ hk]
    simp only [List.map_cons, List.count_cons, beq_iff_eq]
    split_ifs with h <;> omega

lemma member_ids_init_clusters : member_ids init_clusters = [] := by decide

/-- C4: after `assign_clusters` on a fresh network whose nodes lie within the
plane bounds, the clusters still number 16, the multiset of member ids over
all clusters is exactly the multiset of node ids, and (when the node ids are
distinct, as produced by both generators) each node's id occurs exactly once
across all membership lists — so every node belongs to exactly one cluster,
no node twice in a cluster or in two clusters, and the union of all member
lists is the full node set. -/
theorem assign_clusters_partition (nodes : List Node) (bits : ℕ → Bool × Bool)
    (hb : ∀ n ∈ nodes, n.in_bounds) :
    (assign_clusters nodes bits).length = 16 ∧
    (member_ids (assign_clusters nodes bits)).Perm (nodes.map Node.node_id) ∧
    ((nodes.map Node.node_id).Nodup → ∀ n ∈ nodes,
      ((assign_clusters nodes bits).map
        (fun c => (c.nodes.map Node.node_id).count n.node_id)).sum = 1) := by
  have hlen0 : init_clusters.length = 16 := by decide
  have hcount : ∀ z : ℤ, (member_ids (assign_clusters nodes bits)).count z =
      (nodes.map Node.node_id).count z := by
    intro z
    rw [assign_clusters, assign_clusters_aux_count bits z nodes 0 init_clusters hlen0 hb,
      member_ids_init_clusters]
    simp
  have hperm : (member_ids (assign_clusters nodes bits)).Perm (nodes.map Node.node_id) :=
    List.perm_iff_count.mpr hcount
  refine ⟨by rw [assign_clusters, assign_clusters_aux_length bits, hlen0], hperm, ?_⟩
  intro hnd n hn
  have hsum : ((assign_clusters nodes bits).map
      (fun c => (c.nodes.map Node.node_id).count n.node_id)).sum =
      (member_ids (assign_clusters nodes bits)).count n.node_id := by
    rw [member_ids, member_nodes, List.map_flatten, List.count_flatten,
      List.map_map, List.map_map]
    rfl
  rw [hsum, hcount]
  have hmem : n.node_id ∈ nodes.map Node.node_id := List.mem_map_of_mem _ hn
  exact List.count_eq_one_of_mem hnd hmem

/-- Two in-bounds nodes with distinct ids, used to exercise the cluster
assignment theorem. -/
def sample_nodes : List Node :=
  [Node.init 0 3 4 5 50 50, Node.init 1 6 8 2 60 20]

/-- Witness for C4 on a concrete two-node network with constant tie-break
coins. -/
theorem assign_clusters_partition_witness :
    (∀ n ∈ sample_nodes, n.in_bounds) ∧
    ((assign_clusters sample_nodes (fun _ => (false, false))).length = 16 ∧
      (member_ids (assign_clusters sample_nodes (fun _ => (false, false)))).Perm
        (sample_nodes.map Node.node_id) ∧
      ((sample_nodes.map Node.node_id).Nodup → ∀ n ∈ sample_nodes,
        ((assign_clusters sample_nodes (fun _ => (false, false))).map
          (fun c => (c.nodes.map Node.node_id).count n.node_id)).sum = 1)) :=
  ⟨by decide, assign_clusters_partition sample_nodes (fun _ => (false, false)) (by decide)⟩

/-! ### Lemmas about clusterhead election -/

lemma foldl_max_le (l : List ℚ) (a : ℚ) :
    a ≤ l.foldl max a ∧ ∀ x ∈ l, x ≤ l.foldl max a := by
  induction l generalizing a with
  | nil => simp
  | cons b t ih =>
    rw [List.foldl_cons]
    refine ⟨le_trans (le_max_left a b) (ih (max a b)).1, ?_⟩
    intro x hx
    rcases List.mem_cons.mp hx with hx | hx
    · rw [hx]; exact le_trans (le_max_right a b) (ih (max a b)).1
    · exact (ih (max a b)).2 x hx

lemma foldl_max_mem (l : List ℚ) (a : ℚ) :
    l.foldl max a = a ∨ l.foldl max a ∈ l := by
  induction l generalizing a with
  | nil => exact Or.inl rfl
  | cons b t ih =>
    rw [List.foldl_cons]
    rcases ih (max a b) with h | h
    · rcases max_choice a b with hm | hm
      · exact Or.inl (h.trans hm)
      · exact Or.inr (by rw [h, hm]; exact List.mem_cons_self b t)
    · exact Or.inr (List.mem_cons_of_mem b h)

lemma foldl_min_le (l : List ℚ) (a : ℚ) :
    l.foldl min a ≤ a ∧ ∀ x ∈ l, l.foldl min a ≤ x := by
  induction l generalizing a with
  | nil => simp
  | cons b t ih =>
    rw [List.foldl_cons]
    refine ⟨le_trans (ih (min a b)).1 (min_le_left a b), ?_⟩
    intro x hx
    rcases List.mem_cons.mp hx with hx | hx
    · rw [hx]; exact le_trans (ih (min a b)).1 (min_le_right a b)
    · exact (ih (min a b)).2 x hx

lemma foldl_min_mem (l : List ℚ) (a : ℚ) :
    l.foldl min a = a ∨ l.foldl min a ∈ l := by
  induction l generalizing a with
  | nil => exact Or.inl rfl
  | cons b t ih =>
    rw [List.foldl_cons]
    rcases ih (min a b) with h | h
    · rcases min_choice a b with hm | hm
      · exact Or.inl (h.trans hm)
      · exact Or.inr (by rw [h, hm]; exact List.mem_cons_self b t)
    · exact Or.inr (List.mem_cons_of_mem b h)

lemma max_fitness_spec (c : Cluster) (h : c.nodes ≠ []) :
    (∀ n ∈ c.nodes, n.f ≤ c.max_fitness) ∧ ∃ n ∈ c.nodes, n.f = c.max_fitness := by
  obtain ⟨n, t, hn⟩ := List.exists_cons_of_ne_nil h
  have hmf : c.max_fitness = (t.map Node.f).foldl max n.f := by
    rw [Cluster.max_fitness, hn, List.map_cons]
  constructor
  · intro m hm
    rw [hn] at hm
    rcases List.mem_cons.mp hm with hm | hm
    · exact hm ▸ hmf ▸ (foldl_max_le (t.map Node.f) n.f).1
    · exact hmf ▸ (foldl_max_le (t.map Node.f) n.f).2 m.f (List.mem_map_of_mem _ hm)
  · rcases foldl_max_mem (t.map Node.f) n.f with hmm | hmm
    · exact ⟨n, by rw [hn]; exact List.mem_cons_self n t, by rw [hmf, hmm]⟩
    · obtain ⟨m, hmt, hmf'⟩ := List.mem_map.mp hmm
      exact ⟨m, by rw [hn]; exact List.mem_cons_of_mem n hmt, by rw [hmf, hmf']⟩

lemma top_nodes_sub (c : Cluster) {n : Node} (hn : n ∈ c.top_nodes) :
    n ∈ c.nodes ∧ n.f = c.max_fitness := by
  unfold Cluster.top_nodes at hn
  exact ⟨(List.mem_filter.mp hn).1, of_decide_eq_true (List.mem_filter.mp hn).2⟩

lemma top_nodes_ne_nil (c : Cluster) (h : c.nodes ≠ []) : c.top_nodes ≠ [] := by
  obtain ⟨n, hn, hf⟩ := (max_fitness_spec c h).2
  exact List.ne_nil_of_mem (List.mem_filter.mpr ⟨hn, decide_eq_true hf⟩)

lemma min_distance_spec (c : Cluster) (h : c.top_nodes ≠ []) :
    (∀ n ∈ c.top_nodes, c.min_distance ≤ c.center_dist_sq n) ∧
    ∃ n ∈ c.top_nodes, c.center_dist_sq n = c.min_distance := by
  obtain ⟨n, t, hn⟩ := List.exists_cons_of_ne_nil h
  have hmd : c.min_distance = (t.map c.center_dist_sq).foldl min (c.center_dist_sq n) := by
    rw [Cluster.min_distance, hn, List.map_cons]
  constructor
  · intro m hm
    rw [hn] at hm
    rcases List.mem_cons.mp hm with hm | hm
    · rw [hm]; exact hmd ▸ (foldl_min_le (t.map c.center_dist_sq) (c.center_dist_sq n)).1
    · exact hmd ▸ (foldl_min_le (t.map c.center_dist_sq) (c.center_dist_sq n)).2
        (c.center_dist_sq m) (List.mem_map_of_mem _ hm)
  · rcases foldl_min_mem (t.map c.center_dist_sq) (c.center_dist_sq n) with hmm | hmm
    · exact ⟨n, by rw [hn]; exact List.mem_cons_self n t, by rw [hmd, hmm]⟩
    · obtain ⟨m, hmt, hmd'⟩ := List.mem_map.mp hmm
      exact ⟨m, by rw [hn]; exact List.mem_cons_of_mem n hmt, by rw [hmd, hmd']⟩

lemma closest_nodes_sub (c : Cluster) {n : Node} (hn : n ∈ c.closest_nodes) :
    n ∈ c.top_nodes ∧ c.center_dist_sq n = c.min_distance := by
  unfold Cluster.closest_nodes at hn
  exact ⟨(List.mem_filter.mp hn).1, of_decide_eq_true (List.mem_filter.mp hn).2⟩

lemma closest_nodes_ne_nil (c : Cluster) (h : c.nodes ≠ []) : c.closest_nodes ≠ [] := by
  obtain ⟨n, hn, hd⟩ := (min_distance_spec c (top_nodes_ne_nil c h)).2
  exact List.ne_nil_of_mem (List.mem_filter.mpr ⟨hn, decide_eq_true hd⟩)

/-- A singleton set of top nodes is also the singleton set of closest nodes
(the minimum over one distance is that distance). -/
lemma closest_of_top_singleton (c : Cluster) (m : Node) (h : c.top_nodes = [m]) :
    c.closest_nodes = [m] := by
  have hmd : c.min_distance = c.center_dist_sq m := by
    rw [Cluster.min_distance, h]
    rfl
  rw [Cluster.closest_nodes, h]
  simp [hmd]

lemma elect_clusterhead_mem_closest (c : Cluster) (pick : ℕ) (hd : Node)
    (h : c.elect_clusterhead pick = some hd) : hd ∈ c.closest_nodes := by
  unfold Cluster.elect_clusterhead at h
  by_cases he : c.nodes.isEmpty
  · simp [he] at h
  · rw [if_neg he] at h
    by_cases ht : c.top_nodes.length = 1
    · rw [if_pos ht] at h
      obtain ⟨m, hm⟩ := List.length_eq_one.mp ht
      rw [hm] at h
      simp at h
      rw [closest_of_top_singleton c m hm, h]
      exact List.mem_singleton_self hd
    · rw [if_neg ht] at h
      by_cases hc : c.closest_nodes.length = 1
      · rw [if_pos hc] at h
        obtain ⟨m, hm⟩ := List.length_eq_one.mp hc
        rw [hm] at h
        simp at h
        rw [hm, h]
        exact List.mem_singleton_self hd
      · rw [if_neg hc] at h
        exact List.get?_mem h

lemma elect_clusterhead_mem (c : Cluster) (pick : ℕ) (hd : Node)
    (h : c.elect_clusterhead pick = some hd) : hd ∈ c.nodes :=
  (top_nodes_sub c (closest_nodes_sub c (elect_clusterhead_mem_closest c pick hd h)).1).1

lemma elect_clusterhead_some (c : Cluster) (pick : ℕ) (h : c.nodes ≠ []) :
    ∃ hd, c.elect_clusterhead pick = some hd := by
  unfold Cluster.elect_clusterhead
  rw [if_neg (by simpa using h)]
  by_cases ht : c.top_nodes.length = 1
  · obtain ⟨m, hm⟩ := List.length_eq_one.mp ht
    exact ⟨m, by rw [if_pos ht, hm]; rfl⟩
  · rw [if_neg ht]
    by_cases hc : c.closest_nodes.length = 1
    · obtain ⟨m, hm⟩ := List.length_eq_one.mp hc
      exact ⟨m, by rw [if_pos hc, hm]; rfl⟩
    · rw [if_neg hc]
      have hne : c.closest_nodes ≠ [] := closest_nodes_ne_nil c h
      have hlt : pick % c.closest_nodes.length < c.closest_nodes.length :=
        Nat.mod_lt pick (List.length_pos.mpr hne)
      exact ⟨_, List.get?_eq_get hlt⟩

lemma elect_clusterhead_of_closest_singleton (c : Cluster) (hd : Node)
    (h1 : c.closest_nodes = [hd]) : ∀ p, c.elect_clusterhead p = some hd := by
  intro p
  have hmem : hd ∈ c.nodes :=
    (top_nodes_sub c (closest_nodes_sub c (h1 ▸ List.mem_singleton_self hd)).1).1
  unfold Cluster.elect_clusterhead
  rw [if_neg (by simpa using List.ne_nil_of_mem hmem)]
  by_cases ht : c.top_nodes.length = 1
  · obtain ⟨m, hm⟩ := List.length_eq_one.mp ht
    have : c.closest_nodes = [m] := closest_of_top_singleton c m hm
    rw [h1] at this
    simp at this
    rw [if_pos ht, hm, this]
    rfl
  · rw [if_neg ht, if_pos (by rw [h1]; rfl), h1]
    rfl

/-- C2: for every non-empty cluster and every outcome of the random draw,
`elect_clusterhead` elects a member whose fitness is the exact maximum over
the cluster; the head lies in `top_nodes` (maximum-fitness members) and in
`closest_nodes` (the top nodes attaining the minimum Euclidean distance to the
cluster's geometric center, stated below via the monotone `Real.sqrt` of the
squared distance); and whenever the closest set is a singleton (in particular
whenever exactly one member attains the maximum fitness) the election is
independent of the random draw — randomness is only exercised when more than
one candidate survives both tie-break stages. -/
theorem elect_clusterhead_three_stage (c : Cluster) (pick : ℕ) (h : c.nodes ≠ []) :
    ∃ hd, c.elect_clusterhead pick = some hd ∧ hd ∈ c.nodes ∧
      hd.f = c.max_fitness ∧ (∀ n ∈ c.nodes, n.f ≤ hd.f) ∧
      hd ∈ c.top_nodes ∧ hd ∈ c.closest_nodes ∧
      (∀ n ∈ c.top_nodes,
        Real.sqrt (c.center_dist_sq hd : ℝ) ≤ Real.sqrt (c.center_dist_sq n : ℝ)) ∧
      (c.closest_nodes.length = 1 → ∀ p, c.elect_clusterhead p = some hd) := by
  obtain ⟨hd, hhd⟩ := elect_clusterhead_some c pick h
  have hcl := elect_clusterhead_mem_closest c pick hd hhd
  obtain ⟨htop, hdist⟩ := closest_nodes_sub c hcl
  obtain ⟨hmem, hf⟩ := top_nodes_sub c htop
  have hmax := (max_fitness_spec c h).1
  have hmin := (min_distance_spec c (top_nodes_ne_nil c h)).1
  refine ⟨hd, hhd, hmem, hf, ?_, htop, hcl, ?_, ?_⟩
  · intro n hn
    rw [hf]
    exact hmax n hn
  · intro n hn
    apply Real.sqrt_le_sqrt
    have hle : c.center_dist_sq hd ≤ c.center_dist_sq n := by
      rw [hdist]
      exact hmin n hn
    exact_mod_cast hle
  · intro hlen p
    obtain ⟨m, hm⟩ := List.length_eq_one.mp hlen
    have hdm : hd = m := by rw [hm] at hcl; simpa using hcl
    rw [hdm]
    exact elect_clusterhead_of_closest_singleton c m hm p

/-- The cluster from the repository's own unit test
(`test_cluster_head_election`): cluster 5 with fitness values
37.6, 43.2, 28.8, 43.2 — two members tie at the maximum. -/
def sample_cluster : Cluster :=
  ⟨5, [Node.init 0 5 5 4 70 40, Node.init 1 6 6 3 80 50,
       Node.init 2 7 7 2 60 20, Node.init 3 5 9 3 80 50]⟩

/-- Witness for C2 on the unit test's cluster with pick 0. -/
theorem elect_clusterhead_three_stage_witness :
    sample_cluster.nodes ≠ [] ∧
    (∃ hd, sample_cluster.elect_clusterhead 0 = some hd ∧ hd ∈ sample_cluster.nodes ∧
      hd.f = sample_cluster.max_fitness ∧ (∀ n ∈ sample_cluster.nodes, n.f ≤ hd.f) ∧
      hd ∈ sample_cluster.top_nodes ∧ hd ∈ sample_cluster.closest_nodes ∧
      (∀ n ∈ sample_cluster.top_nodes,
        Real.sqrt (sample_cluster.center_dist_sq hd : ℝ) ≤
          Real.sqrt (sample_cluster.center_dist_sq n : ℝ)) ∧
      (sample_cluster.closest_nodes.length = 1 →
        ∀ p, sample_cluster.elect_clusterhead p = some hd)) :=
  ⟨by simp [sample_cluster],
    elect_clusterhead_three_stage sample_cluster 0 (by simp [sample_cluster])⟩

/-! ### Lemmas about routing -/

lemma get_node_by_id_spec :
    ∀ (nodes : List Node) (node_id : ℤ) (i : ℕ),
      get_node_by_id nodes node_id = some i →
      i < nodes.length ∧ (nget nodes i).node_id = node_id := by
  intro nodes
  induction nodes with
  | nil => intro node_id i h; simp [get_node_by_id] at h
  | cons n t ih =>
    intro node_id i h
    rw [get_node_by_id] at h
    by_cases hn : n.node_id = node_id
    · rw [if_pos hn] at h
      obtain rfl : (0 : ℕ) = i := Option.some.inj h
      exact ⟨Nat.succ_pos _, by simpa [nget] using hn⟩
    · rw [if_neg hn] at h
      obtain ⟨j, hj, rfl⟩ := Option.map_eq_some'.mp h
      obtain ⟨hjl, hji⟩ := ih node_id j hj
      exact ⟨by simpa using hjl, by simpa [nget] using hji⟩

lemma query_ball_point_lt {nodes : List Node} {px py r : ℤ} {i : ℕ}
    (h : i ∈ query_ball_point nodes px py r) : i < nodes.length := by
  unfold query_ball_point at h
  simpa using List.mem_of_mem_filter h

lemma insert_by_key_ne_nil (key : ℕ → ℤ) (x : ℕ) :
    ∀ l, insert_by_key key x l ≠ [] := by
  intro l
  cases l with
  | nil => simp [insert_by_key]
  | cons y ys =>
    rw [insert_by_key]
    split_ifs <;> simp

lemma mem_insert_by_key (key : ℕ → ℤ) (x : ℕ) :
    ∀ l a, a ∈ insert_by_key key x l → a = x ∨ a ∈ l := by
  intro l
  induction l with
  | nil => intro a ha; simp [insert_by_key] at ha; exact Or.inl ha
  | cons y ys ih =>
    intro a ha
    rw [insert_by_key] at ha
    split_ifs at ha
    · rcases List.mem_cons.mp ha with h | h
      · exact Or.inl h
      · exact Or.inr h
    · rcases List.mem_cons.mp ha with h | h
      · exact Or.inr (h ▸ List.mem_cons_self y ys)
      · rcases ih a h with h' | h'
        · exact Or.inl h'
        · exact Or.inr (List.mem_cons_of_mem y h')

lemma mem_sort_by_key (key : ℕ → ℤ) :
    ∀ l a, a ∈ sort_by_key key l → a ∈ l := by
  intro l
  induction l with
  | nil => intro a ha; simp [sort_by_key] at ha
  | cons x xs ih =>
    intro a ha
    rw [sort_by_key] at ha
    rcases mem_insert_by_key key x _ a ha with h | h
    · exact h ▸ List.mem_cons_self x xs
    · exact List.mem_cons_of_mem x (ih a h)

lemma sort_by_key_ne_nil (key : ℕ → ℤ) {l : List ℕ} (h : l ≠ []) :
    sort_by_key key l ≠ [] := by
  cases l with
  | nil => exact absurd rfl h
  | cons x xs => rw [sort_by_key]; exact insert_by_key_ne_nil key x _

lemma get_nearest_node_kdtree_lt {nodes : List Node} {cur dst nxt : ℕ}
    {visited : Finset ℤ} (hdst : dst < nodes.length)
    (h : get_nearest_node_kdtree nodes cur dst visited = some nxt) :
    nxt < nodes.length := by
  simp only [get_nearest_node_kdtree] at h
  split at h
  · exact (Option.some.inj h) ▸ hdst
  · split at h
    · exact absurd h (by simp)
    · cases hl : sort_by_key (fun i => (nget nodes i).dist_sq (nget nodes dst))
          ((query_ball_point nodes (nget nodes cur).x (nget nodes cur).y
            (nget nodes cur).r).filter (fun (i : ℕ) => decide ((i : ℤ) ∉ visited))) with
      | nil => rw [hl] at h; exact absurd h (by simp)
      | cons b bs =>
        rw [hl] at h
        have hb : nxt = b := by simpa using h.symm
        have hmem : nxt ∈ sort_by_key (fun i => (nget nodes i).dist_sq (nget nodes dst))
            ((query_ball_point nodes (nget nodes cur).x (nget nodes cur).y
              (nget nodes cur).r).filter (fun (i : ℕ) => decide ((i : ℤ) ∉ visited))) := by
          rw [hl, hb]; exact List.mem_cons_self b bs
        have := mem_sort_by_key _ _ _ hmem
        exact query_ball_point_lt (List.mem_of_mem_filter this)

/-- The ids present in the network. -/
def id_finset (nodes : List Node) : Finset ℤ :=
  (nodes.map Node.node_id).toFinset

lemma nget_id_mem_id_finset (nodes : List Node) (i : ℕ) (h : i < nodes.length) :
    (nget nodes i).node_id ∈ id_finset nodes := by
  unfold id_finset nget
  rw [List.mem_toFinset, List.getD_eq_getElem _ _ h]
  exact List.mem_map_of_mem _ (List.getElem_mem h)

/-- The forwarding loop cannot exhaust its fuel when the fuel is at least the
number of node ids not yet visited: every iteration inserts the (unvisited)
current id into the visited set, so the visited set strictly grows inside the
fixed id population. -/
lemma route_loop_ne_fuelOut :
    ∀ (fuel : ℕ) (nodes : List Node) (dst cur : ℕ) (route : List ℕ)
      (visited : Finset ℤ),
      dst < nodes.length → cur < nodes.length →
      visited ⊆ id_finset nodes → (nget nodes cur).node_id ∉ visited →
      (id_finset nodes).card - visited.card ≤ fuel →
      route_loop nodes dst fuel cur route visited ≠ RouteResult.fuelOut := by
  intro fuel
  induction fuel with
  | zero =>
    intro nodes dst cur route visited hdst hcur hsub hnot hcard
    rw [route_loop]
    by_cases hc : cur = dst
    · rw [if_pos hc]; simp
    · exfalso
      have h1 : (nget nodes cur).node_id ∈ id_finset nodes :=
        nget_id_mem_id_finset nodes cur hcur
      have h2 : visited.card < (id_finset nodes).card :=
        Finset.card_lt_card (Finset.ssubset_iff_of_subset hsub |>.mpr ⟨_, h1, hnot⟩)
      omega
  | succ fuel ih =>
    intro nodes dst cur route visited hdst hcur hsub hnot hcard
    rw [route_loop]
    by_cases hc : cur = dst
    · rw [if_pos hc]; simp
    · rw [if_neg hc]
      cases hgn : get_nearest_node_kdtree nodes cur dst
          (insert (nget nodes cur).node_id visited) with
      | none => simp [hgn]
      | some nxt =>
        simp only [hgn]
        by_cases hv : (nget nodes nxt).node_id ∈ insert (nget nodes cur).node_id visited
        · rw [if_pos hv]; simp
        · rw [if_neg hv]
          apply ih nodes dst nxt _ _ hdst (get_nearest_node_kdtree_lt hdst hgn)
          · exact Finset.insert_subset (nget_id_mem_id_finset nodes cur hcur) hsub
          · exact hv
          · rw [Finset.card_insert_of_not_mem hnot]
            omega

/-- The loop's result is independent of the fuel once the fuel suffices. -/
lemma route_loop_fuel_le :
    ∀ (f g : ℕ), f ≤ g → ∀ (nodes : List Node) (dst cur : ℕ) (route : List ℕ)
      (visited : Finset ℤ),
      route_loop nodes dst f cur route visited ≠ RouteResult.fuelOut →
      route_loop nodes dst g cur route visited =
        route_loop nodes dst f cur route visited := by
  intro f
  induction f with
  | zero =>
    intro g hg nodes dst cur route visited hne
    by_cases hc : cur = dst
    · rw [route_loop.eq_def, if_pos hc, route_loop.eq_def, if_pos hc]
    · exact absurd (by rw [route_loop, if_neg hc]) hne
  | succ f ih =>
    intro g hg nodes dst cur route visited hne
    by_cases hc : cur = dst
    · rw [route_loop.eq_def, if_pos hc, route_loop.eq_def, if_pos hc]
    · obtain ⟨g', rfl⟩ : ∃ g', g = g' + 1 := ⟨g - 1, by omega⟩
      have hg' : f ≤ g' := by omega
      rw [route_loop, if_neg hc] at hne
      rw [route_loop, if_neg hc, route_loop, if_neg hc]
      cases hgn : get_nearest_node_kdtree nodes cur dst
          (insert (nget nodes cur).node_id visited) with
      | none => simp only [hgn]
      | some nxt =>
        simp only [hgn]
        simp only [hgn] at hne
        by_cases hv : (nget nodes nxt).node_id ∈ insert (nget nodes cur).node_id visited
        · simp only [if_pos hv]
        · simp only [if_neg hv]
          rw [if_neg hv] at hne
          exact ih g' hg' nodes dst nxt (nxt :: route) _ hne

/-- C5: the forwarding loop of `find_route` never exhausts a fuel of
`nodes.length` (the visited set strictly grows each hop inside the fixed id
population, so at most `N` iterations run), the result is unchanged by any
larger fuel — which is exactly why the fuel-free Python `while` loop
terminates within `N` hops — and on a network with at least two nodes and
resolvable endpoints `find_route` always returns an ordinary value (the route,
or the empty list when the greedy search is stuck), never an abort. -/
theorem find_route_terminates (w : WSN) (src_id dest_id : ℤ) (gas : ℕ) (s d : ℕ)
    (hgas : w.nodes.length ≤ gas)
    (hs : get_node_by_id w.nodes src_id = some s)
    (hd : get_node_by_id w.nodes dest_id = some d) :
    route_loop w.nodes d gas s [s] ∅ ≠ RouteResult.fuelOut ∧
    route_loop w.nodes d gas s [s] ∅ = route_loop w.nodes d w.nodes.length s [s] ∅ ∧
    (2 ≤ w.nodes.length → ∃ l, find_route w src_id dest_id = some l) := by
  obtain ⟨hsl, -⟩ := get_node_by_id_spec w.nodes src_id s hs
  obtain ⟨hdl, -⟩ := get_node_by_id_spec w.nodes dest_id d hd
  have hcard : (id_finset w.nodes).card ≤ w.nodes.length := by
    have h1 : (id_finset w.nodes).card ≤ (w.nodes.map Node.node_id).length :=
      (w.nodes.map Node.node_id).toFinset_card_le
    simpa using h1
  have hne : ∀ g, w.nodes.length ≤ g →
      route_loop w.nodes d g s [s] ∅ ≠ RouteResult.fuelOut := by
    intro g hg
    exact route_loop_ne_fuelOut g w.nodes d s [s] ∅ hdl hsl (Finset.empty_subset _)
      (Finset.not_mem_empty _) (by simp only [Finset.card_empty]; omega)
  refine ⟨hne gas hgas, route_loop_fuel_le w.nodes.length gas hgas w.nodes d s [s] ∅
    (hne _ le_rfl), ?_⟩
  intro h2
  have hnonempty : ¬ w.nodes.isEmpty = true := by
    rw [List.isEmpty_iff]
    intro hcontra
    rw [hcontra] at h2
    simp at h2
  unfold find_route find_route_gas
  simp only [build_kd_tree, if_neg hnonempty, if_neg (show ¬w.nodes.length ≤ 1 by omega),
    hs, hd]
  cases hloop : route_loop w.nodes d w.nodes.length s [s] ∅ with
  | found l => exact ⟨l, rfl⟩
  | fuelOut => exact absurd hloop (hne _ le_rfl)

/-- A two-node network with the two nodes in mutual range, used to exercise
the routing theorems. -/
def route_demo_network : WSN :=
  ⟨[Node.init 0 0 0 5 50 50, Node.init 1 3 4 5 50 50]⟩

/-- Witness for C5 on a concrete two-node network (`gas = 2`). -/
theorem find_route_terminates_witness :
    (route_demo_network.nodes.length ≤ 2 ∧
      get_node_by_id route_demo_network.nodes 0 = some 0 ∧
      get_node_by_id route_demo_network.nodes 1 = some 1) ∧
    (route_loop route_demo_network.nodes 1 2 0 [0] ∅ ≠ RouteResult.fuelOut ∧
      route_loop route_demo_network.nodes 1 2 0 [0] ∅ =
        route_loop route_demo_network.nodes 1 route_demo_network.nodes.length 0 [0] ∅ ∧
      (2 ≤ route_demo_network.nodes.length →
        ∃ l, find_route route_demo_network 0 1 = some l)) :=
  ⟨⟨by decide, by decide, by decide⟩,
    find_route_terminates route_demo_network 0 1 2 0 1 (by decide) (by decide) (by decide)⟩

/-- The forwarding loop only ever returns routes without repeated ids: every
hop checks its candidate id against the visited set, which contains the ids of
everything already on the route. -/
lemma route_loop_nodup :
    ∀ (fuel : ℕ) (nodes : List Node) (dst cur : ℕ) (route : List ℕ)
      (visited : Finset ℤ) (l : List ℤ),
      route.head? = some cur →
      (route.map (fun i => (nget nodes i).node_id)).Nodup →
      (∀ i ∈ route.tail, (nget nodes i).node_id ∈ visited) →
      (nget nodes cur).node_id ∉ visited →
      route_loop nodes dst fuel cur route visited = RouteResult.found l →
      l.Nodup := by
  intro fuel
  induction fuel with
  | zero =>
    intro nodes dst cur route visited l hhead hnd htail hcur h
    rw [route_loop] at h
    by_cases hc : cur = dst
    · rw [if_pos hc] at h
      have hl : route.reverse.map (fun i => (nget nodes i).node_id) = l := by
        injection h
      rw [← hl, List.map_reverse]
      exact List.nodup_reverse.mpr hnd
    · rw [if_neg hc] at h
      exact absurd h (by simp)
  | succ fuel ih =>
    intro nodes dst cur route visited l hhead hnd htail hcur h
    rw [route_loop] at h
    by_cases hc : cur = dst
    · rw [if_pos hc] at h
      have hl : route.reverse.map (fun i => (nget nodes i).node_id) = l := by
        injection h
      rw [← hl, List.map_reverse]
      exact List.nodup_reverse.mpr hnd
    · rw [if_neg hc] at h
      obtain ⟨t, rfl⟩ : ∃ t, route = cur :: t := by
        cases route with
        | nil => simp at hhead
        | cons a t =>
          have ha : a = cur := by simpa using hhead
          exact ⟨t, by rw [ha]⟩
      cases hgn : get_nearest_node_kdtree nodes cur dst
          (insert (nget nodes cur).node_id visited) with
      | none =>
        simp only [hgn] at h
        have hl : ([] : List ℤ) = l := by injection h
        rw [← hl]
        exact List.nodup_nil
      | some nxt =>
        simp only [hgn] at h
        by_cases hv : (nget nodes nxt).node_id ∈ insert (nget nodes cur).node_id visited
        · rw [if_pos hv] at h
          have hl : ([] : List ℤ) = l := by injection h
          rw [← hl]
          exact List.nodup_nil
        · rw [if_neg hv] at h
          have hroute_ids : ∀ i ∈ cur :: t,
              (nget nodes i).node_id ∈ insert (nget nodes cur).node_id visited := by
            intro i hi
            rcases List.mem_cons.mp hi with hi | hi
            · rw [hi]; exact Finset.mem_insert_self _ _
            · exact Finset.mem_insert_of_mem (htail i hi)
          apply ih nodes dst nxt (nxt :: cur :: t) _ l rfl
          · rw [List.map_cons]
            refine List.nodup_cons.mpr ⟨?_, hnd⟩
            intro hmem
            obtain ⟨i, hi, hieq⟩ := List.mem_map.mp hmem
            exact hv (hieq ▸ hroute_ids i hi)
          · intro i hi
            exact hroute_ids i hi
          · exact hv
          · exact h

/-- C10: every route `find_route` returns contains no repeated node id. -/
theorem find_route_route_nodup (w : WSN) (src_id dest_id : ℤ) (l : List ℤ)
    (h : find_route w src_id dest_id = some l) : l.Nodup := by
  unfold find_route find_route_gas at h
  cases hbk : build_kd_tree w.nodes with
  | none => rw [hbk] at h; simp at h
  | some ps =>
    simp only [hbk] at h
    by_cases hlen : w.nodes.length ≤ 1
    · rw [if_pos hlen] at h
      have hl : ([] : List ℤ) = l := by simpa using h
      rw [← hl]
      exact List.nodup_nil
    · rw [if_neg hlen] at h
      cases hs : get_node_by_id w.nodes src_id with
      | none =>
        simp only [hs] at h
        exact Option.noConfusion h
      | some s =>
        cases hd : get_node_by_id w.nodes dest_id with
        | none =>
          simp only [hs, hd] at h
          exact Option.noConfusion h
        | some d =>
          simp only [hs, hd] at h
          cases hloop : route_loop w.nodes d w.nodes.length s [s] ∅ with
          | fuelOut =>
            simp only [hloop] at h
            exact Option.noConfusion h
          | found l' =>
            simp only [hloop] at h
            have hl : l' = l := by simpa using h
            subst hl
            exact route_loop_nodup w.nodes.length w.nodes d s [s] ∅ l' rfl
              (by simp) (by simp) (Finset.not_mem_empty _) hloop

/-- Witness for C10: the concrete two-node network routes `[0, 1]`, which has
no repeated id. -/
theorem find_route_route_nodup_witness :
    find_route route_demo_network 0 1 = some [0, 1] ∧ ([0, 1] : List ℤ).Nodup :=
  ⟨by decide, find_route_route_nodup route_demo_network 0 1 [0, 1] (by decide)⟩

/-! ### Fitness immutability, construction, and the concrete failure cases -/

/-- Equality of all `Node` fields except the `cluster` back-reference (the one
field `Cluster.add_node` writes). -/
def Node.same_except_cluster (m n : Node) : Prop :=
  m.node_id = n.node_id ∧ m.x = n.x ∧ m.y = n.y ∧ m.r = n.r ∧ m.e = n.e ∧
    m.p = n.p ∧ m.f = n.f

lemma mem_member_nodes_set_add (n m : Node) (d : Cluster) :
    ∀ (cs : List Cluster) (k : ℕ),
      m ∈ member_nodes (cs.set k ((cs.getD k d).add_node n)) →
      m ∈ member_nodes cs ∨ ∃ z, m = { n with cluster := some z } := by
  intro cs
  induction cs with
  | nil =>
    intro k h
    simp [member_nodes] at h
  | cons c t ih =>
    intro k h
    cases k with
    | zero =>
      rw [List.getD_cons_zero, List.set_cons_zero, member_nodes_cons] at h
      rcases List.mem_append.mp h with h | h
      · rw [Cluster.add_node] at h
        rcases List.mem_append.mp h with h | h
        · exact Or.inl (by rw [member_nodes_cons]; exact List.mem_append_left _ h)
        · exact Or.inr ⟨c.cluster_id, by simpa using h⟩
      · exact Or.inl (by rw [member_nodes_cons]; exact List.mem_append_right _ h)
    | succ k =>
      rw [List.getD_cons_succ, List.set_cons_succ, member_nodes_cons] at h
      rcases List.mem_append.mp h with h | h
      · exact Or.inl (by rw [member_nodes_cons]; exact List.mem_append_left _ h)
      · rcases ih k h with h' | h'
        · exact Or.inl (by rw [member_nodes_cons]; exact List.mem_append_right _ h')
        · exact Or.inr h'

lemma mem_member_nodes_assign_aux (bits : ℕ → Bool × Bool) :
    ∀ (ns : List Node) (i : ℕ) (cs : List Cluster) (m : Node),
      m ∈ member_nodes (assign_clusters_aux bits ns i cs) →
      m ∈ member_nodes cs ∨ ∃ n ∈ ns, ∃ z, m = { n with cluster := some z } := by
  intro ns
  induction ns with
  | nil =>
    intro i cs m h
    exact Or.inl h
  | cons n t ih =>
    intro i cs m h
    rw [assign_clusters_aux] at h
    rcases ih (i + 1) _ m h with h' | h'
    · rcases mem_member_nodes_set_add n m _ cs _ h' with h'' | h''
      · exact Or.inl h''
      · obtain ⟨z, hz⟩ := h''
        exact Or.inr ⟨n, List.mem_cons_self n t, z, hz⟩
    · obtain ⟨n', hn', z, hz⟩ := h'
      exact Or.inr ⟨n', List.mem_cons_of_mem n hn', z, hz⟩

/-- C9: the fitness computed at construction is exactly
`0.4*r + 0.4*e + 0.2*p`, it is a pure function of `r`, `e`, `p` alone, and no
core operation mutates it: cluster assignment only writes the `cluster`
back-reference, leaving every other field (including `f`) unchanged, and
election returns an existing member.  (`build_kd_tree` reads only positions
and `find_route` returns ids, so neither constructs or writes any node.) -/
theorem node_fitness_formula_immutable :
    (∀ (i x y r e p : ℤ),
      (Node.init i x y r e p).f = (2 / 5 : ℚ) * r + (2 / 5 : ℚ) * e + (1 / 5 : ℚ) * p) ∧
    (∀ (i x y i' x' y' r e p : ℤ),
      (Node.init i x y r e p).f = (Node.init i' x' y' r e p).f) ∧
    (∀ (nodes : List Node) (bits : ℕ → Bool × Bool),
      ∀ m ∈ member_nodes (assign_clusters nodes bits),
        ∃ n ∈ nodes, m.same_except_cluster n) ∧
    (∀ (c : Cluster) (pick : ℕ) (hd : Node),
      c.elect_clusterhead pick = some hd → hd ∈ c.nodes) := by
  refine ⟨fun i x y r e p => rfl, fun i x y i' x' y' r e p => rfl, ?_,
    elect_clusterhead_mem⟩
  intro nodes bits m hm
  rcases mem_member_nodes_assign_aux bits nodes 0 init_clusters m hm with h | h
  · have h0 : member_nodes init_clusters = ([] : List Node) := by decide
    rw [h0] at h
    exact absurd h (List.not_mem_nil m)
  · obtain ⟨n, hn, z, rfl⟩ := h
    exact ⟨n, hn, rfl, rfl, rfl, rfl, rfl, rfl, rfl⟩

/-- Witness for C9: the fitness formula at concrete inputs, and a concrete
member produced by cluster assignment that agrees with its source node on
every field except `cluster`. -/
theorem node_fitness_formula_immutable_witness :
    ((Node.init 7 1 2 3 4 5).f = (2 / 5 : ℚ) * 3 + (2 / 5 : ℚ) * 4 + (1 / 5 : ℚ) * 5) ∧
    (∃ n ∈ [Node.init 0 3 4 5 50 50],
      ({ Node.init 0 3 4 5 50 50 with cluster := some 0 } : Node).same_except_cluster n) :=
  ⟨node_fitness_formula_immutable.1 7 1 2 3 4 5,
    node_fitness_formula_immutable.2.2.1 [Node.init 0 3 4 5 50 50]
      (fun _ => (false, false))
      ({ Node.init 0 3 4 5 50 50 with cluster := some 0 } : Node)
      (List.Mem.head _)⟩

/-- C8 counterexample: the claim requires construction to fail on a
non-positive radius, but `Node.__init__` performs no validation at all — at
`r = -1` the specification-style checked constructor rejects the input while
the actual constructor succeeds and stores the malformed value unchanged. -/
theorem node_init_no_validation_cx :
    node_init_checked 0 0 0 (-1) 1 1 = none ∧
    (Node.init 0 0 0 (-1) 1 1).r = -1 ∧
    (Node.init 0 0 0 (-1) 1 1).node_id = 0 ∧
    (Node.init 0 0 0 (-1) 1 1).cluster = none :=
  ⟨by decide, rfl, rfl, rfl⟩

/-- C8 (amended): `Node` construction never fails and never clamps — for
every input, malformed or not, the constructor succeeds and stores every
parameter exactly as given, computing the fitness by the fixed formula. -/
theorem node_init_never_fails (i x y r e p : ℤ) :
    (Node.init i x y r e p).node_id = i ∧ (Node.init i x y r e p).x = x ∧
    (Node.init i x y r e p).y = y ∧ (Node.init i x y r e p).r = r ∧
    (Node.init i x y r e p).e = e ∧ (Node.init i x y r e p).p = p ∧
    (Node.init i x y r e p).cluster = none ∧
    (Node.init i x y r e p).f = (2 / 5 : ℚ) * r + (2 / 5 : ℚ) * e + (1 / 5 : ℚ) * p :=
  ⟨rfl, rfl, rfl, rfl, rfl, rfl, rfl, rfl⟩

/-- The network the user-mode loader builds from the input file
`4 / 0 0 1 1 1 / 0 0 1 1 1 / 10 10 3 1 1 / 11 10 3 1 1`: the duplicate second
line is skipped but the running counter still advances, so the stored nodes
carry ids 0, 2, 3 at list indices 0, 1, 2 — ids no longer equal indices. -/
def user_mode_network : WSN :=
  ⟨[Node.init 0 0 0 1 1 1, Node.init 2 10 10 3 1 1, Node.init 3 11 10 3 1 1]⟩

/-- C1 (code bug): nodes with ids 2 and 3 are each within the other's
communication radius (distance 1, both radii 3), yet `find_route 2 3` returns
the empty failure route instead of `[2, 3]`: `get_nearest_node_kdtree`
compares `dest_node.node_id` against the KD-tree's list of *indices* and
filters the index list against the set of visited *ids*, which is only
correct when ids equal indices. -/
theorem find_route_id_index_mismatch :
    (nget user_mode_network.nodes 1).node_id = 2 ∧
    (nget user_mode_network.nodes 2).node_id = 3 ∧
    (nget user_mode_network.nodes 1).dist_sq (nget user_mode_network.nodes 2) ≤
      (nget user_mode_network.nodes 1).r ^ 2 ∧
    (nget user_mode_network.nodes 2).dist_sq (nget user_mode_network.nodes 1) ≤
      (nget user_mode_network.nodes 2).r ^ 2 ∧
    0 ≤ (nget user_mode_network.nodes 1).r ∧ 0 ≤ (nget user_mode_network.nodes 2).r ∧
    2 ≤ user_mode_network.nodes.length ∧
    find_route user_mode_network 2 3 = some [] := by decide

/-- The degenerate networks for C6: no nodes (user-mode input declaring 0
nodes, or a missing input file), and a single node. -/
def empty_network : WSN := ⟨[]⟩

/-- A one-node network. -/
def single_node_network : WSN := ⟨[Node.init 0 5 5 3 1 1]⟩

/-- C6 (code bug): with exactly one node `find_route` fails gracefully with
the empty route, but on the empty network `build_kd_tree` leaves the index
`None` and `find_route`'s first statement `self.kd_tree.tree.children`
raises `AttributeError` (modelled as `none`) — the empty network crashes
instead of reporting the network-too-small condition. -/
theorem find_route_empty_network_crash :
    find_route empty_network 0 1 = none ∧
    find_route single_node_network 0 1 = some [] := by decide

/-- A two-node network with ids 0 and 1, for the unknown-id query. -/
def pair_network : WSN := ⟨[Node.init 0 0 0 5 50 50, Node.init 1 1 0 5 50 50]⟩

/-- C7 (code bug): on a network of at least two nodes, a route query with an
unknown source or destination id makes `get_node_by_id` return `None`, which
`find_route` never checks: the loop dereferences the `None`
(`already_visited.add(None.node_id)`, resp. `dest_node.node_id`) and the
`AttributeError` escapes (modelled as `none`) instead of an unknown-node
error value. -/
theorem find_route_unknown_id_crash :
    2 ≤ pair_network.nodes.length ∧
    get_node_by_id pair_network.nodes 99 = none ∧
    find_route pair_network 99 0 = none ∧
    find_route pair_network 0 99 = none := by decide
